import Mathlib

/-!
Shallow embedding of `src/main.py` ("Bang: AWS IAM access key rotation tool").

The program is a linear orchestration: list the user's access keys, guard
against already having two keys, create a new key, write it into the
`~/.aws/credentials` INI file, then deactivate (and, when the grace period
is zero or negative, delete) the superseded keys.

The embedding models the run from the point where the initial listing has
succeeded (the snapshot `keys`) and the creation call succeeds (`newKey`);
the fatal `ClientError → sys.exit(1)` paths of `get_current_user`,
`get_access_keys` and `create_new_access_key` are outside the claims.
The non-fatal calls (`update_access_key`, `delete_access_key`), whose
`ClientError`s are caught and printed, are given per-key success oracles
`dok`/`dlok`; the run emits an *attempt* event in either case, carrying the
oracle's answer, so that both the call sequence and the remote effect of
each call can be reasoned about.
-/

/-- One entry of the `AccessKeyMetadata` snapshot returned by the initial
`list_access_keys` call: public identifier and creation timestamp
(`CreateDate`, modelled as an integer). -/
structure Key where
  id : String
  createDate : Int
deriving DecidableEq

/-- The credential returned by `create_access_key`: public identifier and
secret material. -/
structure AccessKey where
  id : String
  secret : String
deriving DecidableEq

/-- The options of one INI section, in file order. -/
abbrev Options := List (String × String)

/-- A parsed credentials file: named sections in file order, as
`configparser` holds them after `config.read`. -/
abbrev Config := List (String × Options)

/-- `config[section][k] = v` on one section's options: overwrite every
existing entry for `k` in place, else append `(k, v)` at the end. -/
def setOpt (opts : Options) (k v : String) : Options :=
  if opts.any (fun p => p.1 == k) then
    opts.map (fun p => if p.1 == k then (k, v) else p)
  else
    opts ++ [(k, v)]

/-- `update_credentials_file` (src/main.py lines 54-71) on the parsed file:
add the profile section if absent, then set its two fields to the new
credential's identifier and secret.  All other sections are mapped
identically. -/
def update_credentials_file (cfg : Config) (profile : String) (ak : AccessKey) : Config :=
  (if cfg.any (fun s => s.1 == profile) then cfg else cfg ++ [(profile, [])]).map
    (fun s =>
      if s.1 == profile then
        (s.1, setOpt (setOpt s.2 "aws_access_key_id" ak.id) "aws_secret_access_key" ak.secret)
      else s)

/-- First section of a given name, as `configparser` section lookup. -/
def lookupSection (cfg : Config) (name : String) : Option Options :=
  (cfg.find? (fun s => s.1 == name)).map (fun s => s.2)

/-- Value of option `k` in section `name`. -/
def lookupOpt (cfg : Config) (name k : String) : Option String :=
  (lookupSection cfg name).bind (fun opts => (opts.find? (fun p => p.1 == k)).map (fun p => p.2))

/-- Observable external calls and operator reports of one run.
`deactivate`/`delete` are attempts; their `ok` field records whether the
remote call succeeded (the program ignores it beyond printing). -/
inductive Event where
  | create (id : String)
  | writeConfig
  | deactivate (id : String) (ok : Bool)
  | delete (id : String) (ok : Bool)
  | reportDeletionDate (id : String) (date : Int)
deriving DecidableEq

/-- Comparison used by `existing_keys.sort(key=lambda k: k['CreateDate'])`. -/
def byCreateDate (a b : Key) : Prop := a.createDate ≤ b.createDate

instance : DecidableRel byCreateDate := fun a b =>
  inferInstanceAs (Decidable (a.createDate ≤ b.createDate))

instance : IsTotal Key byCreateDate := ⟨fun a b => Int.le_total a.createDate b.createDate⟩

instance : IsTrans Key byCreateDate := ⟨fun _ _ _ h1 h2 => le_trans h1 h2⟩

/-- Python's stable ascending sort by `CreateDate`: insertion sort with a
total preorder is exactly the stable sort. -/
def sortByDate (l : List Key) : List Key := List.insertionSort byCreateDate l

/-- The list the supersession loop (lines 132-143) iterates: `list.sort`
mutates `existing_keys` in place, so after the forced-eviction branch the
loop runs over the sorted list; otherwise over the original snapshot. -/
def iterationOrder (keys : List Key) (force : Bool) : List Key :=
  if 2 ≤ keys.length ∧ force = true then sortByDate keys else keys

/-- Events of the forced-eviction branch (lines 126-130): when the snapshot
has ≥ 2 keys and `--force` was given, deactivate the snapshot's
earliest-created key (`existing_keys[0]` after the stable sort). -/
def forcedEvents (keys : List Key) (force : Bool) (dok : String → Bool) : List Event :=
  if 2 ≤ keys.length ∧ force = true then
    match (sortByDate keys).head? with
    | some old => [Event.deactivate old.id (dok old.id)]
    | none => []
  else []

/-- One iteration of the supersession loop (lines 132-143): skip the new
key; otherwise deactivate, then either report the planned deletion date
(`grace_period > 0`) or delete immediately. -/
def supersedeEvents (newKey : AccessKey) (grace : Int) (now : Int)
    (dok dlok : String → Bool) (k : Key) : List Event :=
  if k.id ≠ newKey.id then
    Event.deactivate k.id (dok k.id) ::
      (if 0 < grace then [Event.reportDeletionDate k.id (now + grace)]
       else [Event.delete k.id (dlok k.id)])
  else []

/-- Outcome of a run: the emitted call/report sequence, the process exit
code, and the final parsed credentials file. -/
structure RunResult where
  events : List Event
  exitCode : Nat
  config : Config
deriving DecidableEq

/-- The `main` function of src/main.py (lines 97-147, the `Rotate`
operation of the tool) from the point where the snapshot
`keys` has been listed.  Line 111: with ≥ 2 keys and no `--force`, print
the guard message and `sys.exit(1)` — no creation call is made and the
credentials file is untouched.  Otherwise: create the new key, rewrite the
credentials file, run the forced-eviction branch and the supersession
loop, and exit 0.  `now` is the current time in days, so the deletion date
printed at line 139 is `now + grace`. -/
def rotate (keys : List Key) (profile : String) (grace : Int) (force : Bool)
    (newKey : AccessKey) (dok dlok : String → Bool) (now : Int) (cfg0 : Config) :
    RunResult :=
  if 2 ≤ keys.length ∧ force = false then
    { events := [], exitCode := 1, config := cfg0 }
  else
    { events := Event.create newKey.id :: Event.writeConfig ::
        (forcedEvents keys force dok ++
          (iterationOrder keys force).flatMap (supersedeEvents newKey grace now dok dlok)),
      exitCode := 0,
      config := update_credentials_file cfg0 profile newKey }

/-- Event classifiers used to count calls in a trace. -/
def isCreateEv : Event → Bool
  | Event.create _ => true
  | _ => false

def isDeactOf (i : String) : Event → Bool
  | Event.deactivate j _ => j == i
  | _ => false

def isDeleteOf (i : String) : Event → Bool
  | Event.delete j _ => j == i
  | _ => false

def isDeleteEv : Event → Bool
  | Event.delete _ _ => true
  | _ => false

/-- Remote status of an access key at the external service. -/
inductive KeyStatus where
  | active
  | inactive
  | deleted
deriving DecidableEq

/-- Effect of one emitted call on the remote key statuses: a successful
`update_access_key(..., Status='Inactive')` marks the key Inactive, a
successful `delete_access_key` marks it Deleted; failed attempts and
non-call events change nothing. -/
def stepStatus (st : String → KeyStatus) : Event → (String → KeyStatus)
  | Event.deactivate i true => fun j => if j = i then KeyStatus.inactive else st j
  | Event.delete i true => fun j => if j = i then KeyStatus.deleted else st j
  | _ => st

/-- Whether, starting from remote statuses `st`, the trace ever performs a
successful deletion of a key whose status is still Active at that point. -/
def deletedWhileActive (st : String → KeyStatus) : List Event → Bool
  | [] => false
  | e :: rest =>
    (match e with
     | Event.delete i true => st i == KeyStatus.active
     | _ => false) || deletedWhileActive (stepStatus st e) rest

/-- `config[sec][k] = v` at the whole-file level: set the option in every
section named `sec`. -/
def addOpt (cfg : Config) (sec k v : String) : Config :=
  cfg.map (fun s => if s.1 == sec then (s.1, setOpt s.2 k v) else s)

/-- Whitespace stripped by `str.strip()` on a physical line (a line holds
no newline characters). -/
def wsChar (c : Char) : Bool := c == ' ' || c == '\t'

/-- `str.strip()` on a line's characters. -/
def stripChars (l : List Char) : List Char :=
  ((l.dropWhile wsChar).reverse.dropWhile wsChar).reverse

/-- Split a line's characters at every `=`, as `str.split('=')`. -/
def splitEqChars : List Char → List (List Char)
  | [] => [[]]
  | c :: rest =>
    if c == '=' then [] :: splitEqChars rest
    else
      match splitEqChars rest with
      | [] => [[c]]
      | p :: ps => (c :: p) :: ps

/-- Re-join the parts after the first `=`, recovering the raw value text. -/
def joinEqChars : List (List Char) → List Char
  | [] => []
  | [p] => p
  | p :: ps => p ++ '=' :: joinEqChars ps

/-- One step of `configparser.read` on a physical line (simplified to the
constructs exercised here: no continuation lines, no `DEFAULT` section, no
inline comments, `=` as the only delimiter).  Blank and comment lines are
discarded; a `[name]` line opens a section; a `key=value` line stores the
option under the lower-cased (`optionxform`), stripped key. -/
def parseStep (st : Config × Option String) (line : String) : Config × Option String :=
  let t := stripChars line.data
  if t = [] then st
  else if t.head? == some '#' || t.head? == some ';' then st
  else if t.head? == some '[' && t.getLast? == some ']' then
    let name := String.mk ((t.drop 1).dropLast)
    (st.1 ++ [(name, [])], some name)
  else
    match st.2 with
    | none => st
    | some sec =>
      match splitEqChars t with
      | [] => st
      | [_] => st
      | k :: rest =>
        (addOpt st.1 sec (String.mk ((stripChars k).map Char.toLower))
          (String.mk (stripChars (joinEqChars rest))), st.2)

/-- `configparser.read` over the file's physical lines. -/
def parseLines (lines : List String) : Config :=
  (lines.foldl parseStep ([], none)).1

/-- `configparser.write`: each section is re-serialized as `[name]`, one
`key = value` line per option, then a blank line.  Comments and original
formatting are gone; this is the re-serialization the tool performs. -/
def writeLines (cfg : Config) : List String :=
  cfg.flatMap (fun s =>
    ("[" ++ s.1 ++ "]") :: s.2.map (fun p => p.1 ++ " = " ++ p.2) ++ [""])

/-- `update_credentials_file` at the physical-file level: parse the
existing lines, update the parsed config, re-serialize. -/
def update_credentials_file_lines (lines : List String) (profile : String)
    (ak : AccessKey) : List String :=
  writeLines (update_credentials_file (parseLines lines) profile ak)

/-! Helper lemmas about the credentials-file update. -/

theorem setOpt_cons_ne (p : String × String) (ps : Options) (k v : String) (h : ¬p.1 = k) :
    setOpt (p :: ps) k v = p :: setOpt ps k v := by
  by_cases ha : ps.any (fun q => q.1 == k) <;> simp [setOpt, h, ha]

theorem setOpt_cons_eq (p : String × String) (ps : Options) (k v : String) (h : p.1 = k) :
    setOpt (p :: ps) k v = (k, v) :: ps.map (fun q => if q.1 == k then (k, v) else q) := by
  simp [setOpt, h]

theorem find?_setOpt_self (opts : Options) (k v : String) :
    (setOpt opts k v).find? (fun p => p.1 == k) = some (k, v) := by
  induction opts with
  | nil => simp [setOpt, List.find?]
  | cons p ps ih =>
    by_cases hp : p.1 = k
    · rw [setOpt_cons_eq p ps k v hp]
      rw [List.find?_cons_of_pos _ (by simp)]
    · rw [setOpt_cons_ne p ps k v hp]
      rw [List.find?_cons_of_neg _ (by simp [hp])]
      exact ih

theorem find?_map_setOpt_fn (ps : Options) (k v k' : String) (h : ¬k' = k) :
    (ps.map (fun q => if q.1 == k then (k, v) else q)).find? (fun q => q.1 == k') =
      ps.find? (fun q => q.1 == k') := by
  induction ps with
  | nil => simp
  | cons q qs ih =>
    rw [List.map_cons]
    by_cases hq : q.1 = k
    · rw [if_pos (by simp [hq])]
      rw [List.find?_cons_of_neg _ (by simp; exact fun hh => h hh.symm)]
      rw [List.find?_cons_of_neg _ (by simp [hq]; exact fun hh => h hh.symm)]
      exact ih
    · rw [if_neg (by simp [hq])]
      by_cases hq' : q.1 = k'
      · rw [List.find?_cons_of_pos _ (by simp [hq']), List.find?_cons_of_pos _ (by simp [hq'])]
      · rw [List.find?_cons_of_neg _ (by simp [hq']), List.find?_cons_of_neg _ (by simp [hq'])]
        exact ih

theorem find?_setOpt_ne (opts : Options) (k v k' : String) (h : ¬k' = k) :
    (setOpt opts k v).find? (fun p => p.1 == k') = opts.find? (fun p => p.1 == k') := by
  induction opts with
  | nil =>
    simp only [setOpt, List.any_nil, Bool.false_eq_true, if_false, List.nil_append]
    rw [List.find?_cons_of_neg _ (by simp; exact fun hh => h hh.symm)]
  | cons p ps ih =>
    by_cases hp : p.1 = k
    · rw [setOpt_cons_eq p ps k v hp]
      rw [List.find?_cons_of_neg _ (by simp; exact fun hh => h hh.symm)]
      rw [find?_map_setOpt_fn ps k v k' h]
      rw [List.find?_cons_of_neg _ (by simp [hp]; exact fun hh => h hh.symm)]
    · rw [setOpt_cons_ne p ps k v hp]
      by_cases hpk' : p.1 = k'
      · rw [List.find?_cons_of_pos _ (by simp [hpk']), List.find?_cons_of_pos _ (by simp [hpk'])]
      · rw [List.find?_cons_of_neg _ (by simp [hpk']), List.find?_cons_of_neg _ (by simp [hpk'])]
        exact ih

theorem ensure_section_find? (cfg : Config) (profile : String) :
    ∃ opts, (if cfg.any (fun s => s.1 == profile) then cfg
      else cfg ++ [(profile, [])]).find? (fun s => s.1 == profile) = some (profile, opts) := by
  by_cases h : cfg.any (fun s => s.1 == profile)
  · rw [if_pos h]
    obtain ⟨x, hx, hpx⟩ := List.any_eq_true.mp h
    have hsome : (List.find? (fun s : String × Options => s.1 == profile) cfg).isSome = true :=
      List.find?_isSome.mpr ⟨x, hx, hpx⟩
    obtain ⟨a, ha⟩ := Option.isSome_iff_exists.mp hsome
    obtain ⟨a1, a2⟩ := a
    have hpa : a1 = profile := by simpa using List.find?_some ha
    exact ⟨a2, by rw [ha, hpa]⟩
  · rw [if_neg h, List.find?_append]
    have h0 : cfg.find? (fun s => s.1 == profile) = none := by
      rw [List.find?_eq_none]
      intro x hx
      exact fun hpx => h (List.any_eq_true.mpr ⟨x, hx, hpx⟩)
    rw [h0]
    exact ⟨[], by rw [List.find?_cons_of_pos _ (by simp)]; rfl⟩

theorem lookupSection_update_self (cfg : Config) (profile : String) (ak : AccessKey) :
    ∃ opts, lookupSection (update_credentials_file cfg profile ak) profile =
      some (setOpt (setOpt opts "aws_access_key_id" ak.id) "aws_secret_access_key" ak.secret) := by
  obtain ⟨opts, h⟩ := ensure_section_find? cfg profile
  refine ⟨opts, ?_⟩
  unfold lookupSection update_credentials_file
  rw [List.find?_map]
  have hcomp : ((fun s : String × Options => s.1 == profile) ∘
      (fun s : String × Options => if s.1 == profile then
        (s.1, setOpt (setOpt s.2 "aws_access_key_id" ak.id) "aws_secret_access_key" ak.secret)
      else s)) = (fun s : String × Options => s.1 == profile) := by
    funext s
    by_cases hs : s.1 = profile <;> simp [Function.comp, hs]
  rw [hcomp, h]
  simp

theorem lookupOpt_update_self (cfg : Config) (profile : String) (ak : AccessKey) :
    lookupOpt (update_credentials_file cfg profile ak) profile "aws_access_key_id" =
        some ak.id ∧
    lookupOpt (update_credentials_file cfg profile ak) profile "aws_secret_access_key" =
        some ak.secret := by
  obtain ⟨opts, h⟩ := lookupSection_update_self cfg profile ak
  unfold lookupOpt
  rw [h]
  constructor
  · show (((setOpt (setOpt opts "aws_access_key_id" ak.id) "aws_secret_access_key"
      ak.secret).find? (fun p => p.1 == "aws_access_key_id")).map (fun p => p.2)) = some ak.id
    rw [find?_setOpt_ne _ _ _ _ (by decide), find?_setOpt_self]
    rfl
  · show (((setOpt (setOpt opts "aws_access_key_id" ak.id) "aws_secret_access_key"
      ak.secret).find? (fun p => p.1 == "aws_secret_access_key")).map (fun p => p.2)) =
      some ak.secret
    rw [find?_setOpt_self]
    rfl

theorem find?_ensure_other (cfg : Config) (profile s : String) (h : ¬s = profile) :
    (if cfg.any (fun q => q.1 == profile) then cfg
      else cfg ++ [(profile, [])]).find? (fun q => q.1 == s) =
      cfg.find? (fun q => q.1 == s) := by
  by_cases hc : cfg.any (fun q => q.1 == profile)
  · rw [if_pos hc]
  · rw [if_neg hc, List.find?_append]
    rw [List.find?_cons_of_neg _ (by simp; exact fun hh => h hh.symm)]
    cases cfg.find? (fun q => q.1 == s) <;> rfl

theorem lookupSection_update_other (cfg : Config) (profile : String) (ak : AccessKey)
    (s : String) (h : ¬s = profile) :
    lookupSection (update_credentials_file cfg profile ak) s = lookupSection cfg s := by
  unfold lookupSection update_credentials_file
  rw [List.find?_map]
  have hcomp : ((fun q : String × Options => q.1 == s) ∘
      (fun q : String × Options => if q.1 == profile then
        (q.1, setOpt (setOpt q.2 "aws_access_key_id" ak.id) "aws_secret_access_key" ak.secret)
      else q)) = (fun q : String × Options => q.1 == s) := by
    funext q
    by_cases hq : q.1 = profile <;> simp [Function.comp, hq]
  rw [hcomp, find?_ensure_other cfg profile s h]
  cases hf : cfg.find? (fun q : String × Options => q.1 == s) with
  | none => rfl
  | some a =>
    have ha : a.1 = s := by simpa using List.find?_some hf
    have : (if a.1 == profile then
        (a.1, setOpt (setOpt a.2 "aws_access_key_id" ak.id) "aws_secret_access_key" ak.secret)
      else a) = a := by
      rw [if_neg (by simp [ha]; exact fun hh => h hh)]
    simp only [Option.map_some', this]

/-! Helper lemmas about event counts in a run's trace. -/

theorem countP_create_supersede (newKey : AccessKey) (grace : Int) (now : Int)
    (dok dlok : String → Bool) (ks : List Key) :
    (ks.flatMap (supersedeEvents newKey grace now dok dlok)).countP isCreateEv = 0 := by
  induction ks with
  | nil => simp
  | cons k ks ih =>
    rw [List.flatMap_cons, List.countP_append, ih]
    by_cases h : k.id = newKey.id <;> by_cases hg : 0 < grace <;>
      simp [supersedeEvents, h, hg, isCreateEv, List.countP_cons]

theorem countP_create_forced (keys : List Key) (force : Bool) (dok : String → Bool) :
    (forcedEvents keys force dok).countP isCreateEv = 0 := by
  unfold forcedEvents
  by_cases h : 2 ≤ keys.length ∧ force = true
  · rw [if_pos h]
    cases (sortByDate keys).head? <;> simp [isCreateEv, List.countP_cons]
  · rw [if_neg h]
    rfl

/-- C1: with an initial snapshot of ≥ 2 credentials and `force = false`,
the run exits with code 1, issues no external call at all (in particular
no creation call), and leaves the credentials file untouched
(src/main.py lines 111-113). -/
theorem rotate_cap_guard_aborts (keys : List Key) (profile : String) (grace : Int)
    (newKey : AccessKey) (dok dlok : String → Bool) (now : Int) (cfg0 : Config)
    (hlen : 2 ≤ keys.length) :
    (rotate keys profile grace false newKey dok dlok now cfg0).exitCode = 1 ∧
    (rotate keys profile grace false newKey dok dlok now cfg0).events = [] ∧
    (rotate keys profile grace false newKey dok dlok now cfg0).config = cfg0 := by
  unfold rotate
  rw [if_pos ⟨hlen, rfl⟩]
  exact ⟨rfl, rfl, rfl⟩

theorem rotate_cap_guard_aborts_witness :
    2 ≤ ([⟨"A", 0⟩, ⟨"B", 1⟩] : List Key).length ∧
    ((rotate [⟨"A", 0⟩, ⟨"B", 1⟩] "default" 7 false ⟨"N", "S"⟩
        (fun _ => true) (fun _ => true) 0 []).exitCode = 1 ∧
      (rotate [⟨"A", 0⟩, ⟨"B", 1⟩] "default" 7 false ⟨"N", "S"⟩
        (fun _ => true) (fun _ => true) 0 []).events = [] ∧
      (rotate [⟨"A", 0⟩, ⟨"B", 1⟩] "default" 7 false ⟨"N", "S"⟩
        (fun _ => true) (fun _ => true) 0 []).config = []) :=
  ⟨by decide,
    rotate_cap_guard_aborts [⟨"A", 0⟩, ⟨"B", 1⟩] "default" 7 ⟨"N", "S"⟩
      (fun _ => true) (fun _ => true) 0 [] (by decide)⟩

/-- C2: whenever the cap guard passes (snapshot of ≤ 1 credentials, or
`force = true`), the run issues exactly one creation call, exits 0, and
the final credentials file holds the new credential's identifier and
secret under the target profile section (src/main.py lines 111-121,
54-71). -/
theorem rotate_creates_once_and_persists (keys : List Key) (profile : String) (grace : Int)
    (force : Bool) (newKey : AccessKey) (dok dlok : String → Bool) (now : Int) (cfg0 : Config)
    (hrun : keys.length ≤ 1 ∨ force = true) :
    (rotate keys profile grace force newKey dok dlok now cfg0).events.countP isCreateEv = 1 ∧
    lookupOpt (rotate keys profile grace force newKey dok dlok now cfg0).config profile
        "aws_access_key_id" = some newKey.id ∧
    lookupOpt (rotate keys profile grace force newKey dok dlok now cfg0).config profile
        "aws_secret_access_key" = some newKey.secret ∧
    (rotate keys profile grace force newKey dok dlok now cfg0).exitCode = 0 := by
  have hcond : ¬(2 ≤ keys.length ∧ force = false) := by
    rintro ⟨h2, hf⟩
    rcases hrun with h | h
    · omega
    · rw [h] at hf
      cases hf
  unfold rotate
  rw [if_neg hcond]
  refine ⟨?_, (lookupOpt_update_self cfg0 profile newKey).1,
    (lookupOpt_update_self cfg0 profile newKey).2, rfl⟩
  show (Event.create newKey.id :: Event.writeConfig ::
      (forcedEvents keys force dok ++
        (iterationOrder keys force).flatMap
          (supersedeEvents newKey grace now dok dlok))).countP isCreateEv = 1
  rw [List.countP_cons, List.countP_cons, List.countP_append,
    countP_create_forced, countP_create_supersede]
  simp [isCreateEv]

theorem rotate_creates_once_and_persists_witness :
    (([⟨"A", 0⟩] : List Key).length ≤ 1 ∨ false = true) ∧
    ((rotate [⟨"A", 0⟩] "default" 7 false ⟨"N", "S"⟩
        (fun _ => true) (fun _ => true) 0 []).events.countP isCreateEv = 1 ∧
      lookupOpt (rotate [⟨"A", 0⟩] "default" 7 false ⟨"N", "S"⟩
        (fun _ => true) (fun _ => true) 0 []).config "default"
          "aws_access_key_id" = some "N" ∧
      lookupOpt (rotate [⟨"A", 0⟩] "default" 7 false ⟨"N", "S"⟩
        (fun _ => true) (fun _ => true) 0 []).config "default"
          "aws_secret_access_key" = some "S" ∧
      (rotate [⟨"A", 0⟩] "default" 7 false ⟨"N", "S"⟩
        (fun _ => true) (fun _ => true) 0 []).exitCode = 0) :=
  ⟨Or.inl (by decide),
    rotate_creates_once_and_persists [⟨"A", 0⟩] "default" 7 false ⟨"N", "S"⟩
      (fun _ => true) (fun _ => true) 0 [] (Or.inl (by decide))⟩

theorem guard_passes (keys : List Key) (force : Bool)
    (hrun : keys.length ≤ 1 ∨ force = true) :
    ¬(2 ≤ keys.length ∧ force = false) := by
  rintro ⟨h2, hf⟩
  rcases hrun with h | h
  · omega
  · rw [h] at hf
    cases hf

theorem countP_deact_supersede (newKey : AccessKey) (grace : Int) (now : Int)
    (dok dlok : String → Bool) (i : String) (ks : List Key) :
    (ks.flatMap (supersedeEvents newKey grace now dok dlok)).countP (isDeactOf i) =
      ks.countP (fun q => q.id == i && !(q.id == newKey.id)) := by
  induction ks with
  | nil => simp
  | cons k ks ih =>
    rw [List.flatMap_cons, List.countP_append, ih, List.countP_cons]
    by_cases hi : k.id = i
    · subst hi
      by_cases h : k.id = newKey.id <;> by_cases hg : 0 < grace <;>
        simp [supersedeEvents, h, hg, isDeactOf, List.countP_cons] <;> omega
    · by_cases h : k.id = newKey.id <;> by_cases hg : 0 < grace <;>
        simp [supersedeEvents, h, hg, hi, isDeactOf, List.countP_cons] <;> omega

theorem countP_pred_simplify (ks : List Key) (i nid : String) (h : ¬i = nid) :
    ks.countP (fun q => q.id == i && !(q.id == nid)) = ks.countP (fun q => q.id == i) := by
  have heq : (fun q : Key => q.id == i && !(q.id == nid)) = (fun q : Key => q.id == i) := by
    funext q
    by_cases hq : q.id = i
    · simp [hq, h]
    · simp [hq]
  rw [heq]

theorem countP_id_eq_one (ks : List Key) (k : Key) (hnd : (ks.map Key.id).Nodup)
    (hk : k ∈ ks) :
    ks.countP (fun q => q.id == k.id) = 1 := by
  have h1 : ks.countP (fun q => q.id == k.id) = (ks.map Key.id).count k.id := by
    rw [List.count, List.countP_map]
    rfl
  rw [h1]
  exact List.count_eq_one_of_mem hnd (List.mem_map_of_mem Key.id hk)

theorem iterationOrder_countP_id (keys : List Key) (force : Bool) (k : Key)
    (hnd : (keys.map Key.id).Nodup) (hk : k ∈ keys) :
    (iterationOrder keys force).countP (fun q => q.id == k.id) = 1 := by
  unfold iterationOrder
  by_cases hf2 : 2 ≤ keys.length ∧ force = true
  · rw [if_pos hf2]
    have hperm : (sortByDate keys).Perm keys := List.perm_insertionSort _ _
    exact countP_id_eq_one _ k ((hperm.map Key.id).nodup_iff.mpr hnd) (hperm.mem_iff.mpr hk)
  · rw [if_neg hf2]
    exact countP_id_eq_one keys k hnd hk

/-- Exact deactivation-attempt count per superseded key (shared helper). -/
theorem deact_count_formula (keys : List Key) (profile : String) (grace : Int)
    (force : Bool) (newKey : AccessKey) (dok dlok : String → Bool) (now : Int)
    (cfg0 : Config) (k : Key)
    (hrun : keys.length ≤ 1 ∨ force = true)
    (hnd : (keys.map Key.id).Nodup)
    (hk : k ∈ keys) (hne : ¬k.id = newKey.id) :
    (rotate keys profile grace force newKey dok dlok now cfg0).events.countP
        (isDeactOf k.id) =
      if 2 ≤ keys.length ∧ force = true ∧ (sortByDate keys).head?.map Key.id = some k.id
      then 2 else 1 := by
  unfold rotate
  rw [if_neg (guard_passes keys force hrun)]
  have hpre : (Event.create newKey.id :: Event.writeConfig ::
      (forcedEvents keys force dok ++
        (iterationOrder keys force).flatMap
          (supersedeEvents newKey grace now dok dlok))).countP (isDeactOf k.id) =
      (forcedEvents keys force dok).countP (isDeactOf k.id) +
        ((iterationOrder keys force).flatMap
          (supersedeEvents newKey grace now dok dlok)).countP (isDeactOf k.id) := by
    rw [List.countP_cons, List.countP_cons, List.countP_append]
    simp [isDeactOf]
  show (Event.create newKey.id :: Event.writeConfig ::
      (forcedEvents keys force dok ++
        (iterationOrder keys force).flatMap
          (supersedeEvents newKey grace now dok dlok))).countP (isDeactOf k.id) = _
  rw [hpre, countP_deact_supersede, countP_pred_simplify _ _ _ hne,
    iterationOrder_countP_id keys force k hnd hk]
  by_cases hf2 : 2 ≤ keys.length ∧ force = true
  · have hsne : sortByDate keys ≠ [] := by
      intro hnil
      have hl : (sortByDate keys).length = keys.length := List.length_insertionSort _ _
      rw [hnil] at hl
      simp at hl
      omega
    obtain ⟨old, tl, hso⟩ : ∃ old tl, sortByDate keys = old :: tl := by
      cases hs : sortByDate keys with
      | nil => exact absurd hs hsne
      | cons a l => exact ⟨a, l, rfl⟩
    have hhead : (sortByDate keys).head?.map Key.id = some old.id := by
      rw [hso]
      rfl
    have hforced : (forcedEvents keys force dok).countP (isDeactOf k.id) =
        if old.id = k.id then 1 else 0 := by
      rw [forcedEvents, if_pos hf2, hso]
      by_cases hoi : old.id = k.id <;> simp [isDeactOf, hoi, List.countP_cons]
    rw [hforced]
    by_cases hoi : old.id = k.id
    · have hcond : 2 ≤ keys.length ∧ force = true ∧
          (sortByDate keys).head?.map Key.id = some k.id :=
        ⟨hf2.1, hf2.2, by rw [hhead, hoi]⟩
      rw [if_pos hoi, if_pos hcond]
    · have hcond : ¬(2 ≤ keys.length ∧ force = true ∧
          (sortByDate keys).head?.map Key.id = some k.id) :=
        fun hc => hoi (Option.some.inj (hhead.symm.trans hc.2.2))
      rw [if_neg hoi, if_neg hcond]
  · have hforced : (forcedEvents keys force dok).countP (isDeactOf k.id) = 0 := by
      rw [forcedEvents, if_neg hf2]
      rfl
    have hcond : ¬(2 ≤ keys.length ∧ force = true ∧
        (sortByDate keys).head?.map Key.id = some k.id) :=
      fun hc => hf2 ⟨hc.1, hc.2.1⟩
    rw [hforced, if_neg hcond]

/-- C3 as stated is false: in this successful forced run the oldest key
"A" (≠ new key "N") receives two deactivation attempts, not exactly one. -/
theorem rotate_double_deactivation_cex :
    (rotate [⟨"A", 0⟩, ⟨"B", 1⟩] "default" 7 true ⟨"N", "S"⟩
        (fun _ => true) (fun _ => true) 0 []).exitCode = 0 ∧
    (⟨"A", 0⟩ : Key) ∈ ([⟨"A", 0⟩, ⟨"B", 1⟩] : List Key) ∧
    (rotate [⟨"A", 0⟩, ⟨"B", 1⟩] "default" 7 true ⟨"N", "S"⟩
        (fun _ => true) (fun _ => true) 0 []).events.countP (isDeactOf "A") ≠ 1 := by
  decide

/-- C4: with `force = true` and ≥ 2 initial credentials, the head of the
sorted snapshot is a credential with the earliest creation timestamp, and
it receives two deactivation attempts: the forced-eviction one
(src/main.py lines 126-130) plus the one of the supersession pass
(lines 132-135). -/
theorem rotate_forced_eviction_double (keys : List Key) (profile : String) (grace : Int)
    (newKey : AccessKey) (dok dlok : String → Bool) (now : Int) (cfg0 : Config)
    (old : Key)
    (hlen : 2 ≤ keys.length)
    (hold : (sortByDate keys).head? = some old)
    (hnd : (keys.map Key.id).Nodup)
    (hne : ¬old.id = newKey.id) :
    (∀ x ∈ keys, old.createDate ≤ x.createDate) ∧
    (rotate keys profile grace true newKey dok dlok now cfg0).events.countP
        (isDeactOf old.id) = 2 := by
  obtain ⟨tl, hso⟩ : ∃ tl, sortByDate keys = old :: tl := by
    cases hs : sortByDate keys with
    | nil => rw [hs] at hold; cases hold
    | cons a l =>
      rw [hs] at hold
      obtain rfl : a = old := by simpa using hold
      exact ⟨l, rfl⟩
  have hperm : (sortByDate keys).Perm keys := List.perm_insertionSort _ _
  have hmemold : old ∈ keys := hperm.mem_iff.mp (by rw [hso]; exact List.mem_cons_self _ _)
  constructor
  · intro x hx
    have hsorted : List.Sorted byCreateDate (sortByDate keys) :=
      List.sorted_insertionSort byCreateDate keys
    rw [hso] at hsorted
    have hxs : x ∈ sortByDate keys := hperm.mem_iff.mpr hx
    rw [hso] at hxs
    rcases List.mem_cons.mp hxs with h | h
    · rw [h]
    · exact List.rel_of_sorted_cons hsorted x h
  · have := deact_count_formula keys profile grace true newKey dok dlok now cfg0 old
      (Or.inr rfl) hnd hmemold hne
    rw [this, if_pos ⟨hlen, rfl, by rw [hold]; rfl⟩]

/-- C3 (amended): in every successful run, each snapshot credential whose
identifier differs from the new key's gets exactly one deactivation
attempt from the supersession pass — except that with `force = true` and
≥ 2 initial credentials the earliest-created credential gets a second,
forced-eviction attempt, for a total of two (src/main.py lines 126-135). -/
theorem rotate_deactivation_count_amended (keys : List Key) (profile : String) (grace : Int)
    (force : Bool) (newKey : AccessKey) (dok dlok : String → Bool) (now : Int)
    (cfg0 : Config) (k : Key)
    (hrun : keys.length ≤ 1 ∨ force = true)
    (hnd : (keys.map Key.id).Nodup)
    (hk : k ∈ keys) (hne : ¬k.id = newKey.id) :
    (rotate keys profile grace force newKey dok dlok now cfg0).events.countP
        (isDeactOf k.id) =
      if 2 ≤ keys.length ∧ force = true ∧ (sortByDate keys).head?.map Key.id = some k.id
      then 2 else 1 :=
  deact_count_formula keys profile grace force newKey dok dlok now cfg0 k hrun hnd hk hne

theorem rotate_deactivation_count_amended_witness :
    (rotate [⟨"A", 0⟩, ⟨"B", 1⟩] "default" 7 true ⟨"N", "S"⟩
        (fun _ => true) (fun _ => true) 0 []).events.countP (isDeactOf "A") = 2 :=
  (rotate_deactivation_count_amended [⟨"A", 0⟩, ⟨"B", 1⟩] "default" 7 true ⟨"N", "S"⟩
      (fun _ => true) (fun _ => true) 0 [] ⟨"A", 0⟩
      (Or.inr rfl) (by decide) (by decide) (by decide)).trans (by decide)

theorem rotate_forced_eviction_double_witness :
    (∀ x ∈ ([⟨"A", 0⟩, ⟨"B", 1⟩] : List Key),
      (⟨"A", 0⟩ : Key).createDate ≤ x.createDate) ∧
    (rotate [⟨"A", 0⟩, ⟨"B", 1⟩] "default" 7 true ⟨"N", "S"⟩
        (fun _ => true) (fun _ => true) 0 []).events.countP
      (isDeactOf (⟨"A", 0⟩ : Key).id) = 2 :=
  rotate_forced_eviction_double [⟨"A", 0⟩, ⟨"B", 1⟩] "default" 7 ⟨"N", "S"⟩
    (fun _ => true) (fun _ => true) 0 [] ⟨"A", 0⟩
    (by decide) (by decide) (by decide) (by decide)

theorem countP_del_supersede (newKey : AccessKey) (grace : Int) (now : Int)
    (dok dlok : String → Bool) (i : String) (hg : ¬0 < grace) (ks : List Key) :
    (ks.flatMap (supersedeEvents newKey grace now dok dlok)).countP (isDeleteOf i) =
      ks.countP (fun q => q.id == i && !(q.id == newKey.id)) := by
  induction ks with
  | nil => simp
  | cons k ks ih =>
    rw [List.flatMap_cons, List.countP_append, ih, List.countP_cons]
    by_cases hi : k.id = i
    · subst hi
      by_cases h : k.id = newKey.id <;>
        simp [supersedeEvents, h, hg, isDeleteOf, List.countP_cons] <;> omega
    · by_cases h : k.id = newKey.id <;>
        simp [supersedeEvents, h, hg, hi, isDeleteOf, List.countP_cons] <;> omega

theorem countP_del_forced (keys : List Key) (force : Bool) (dok : String → Bool)
    (i : String) :
    (forcedEvents keys force dok).countP (isDeleteOf i) = 0 := by
  unfold forcedEvents
  by_cases h : 2 ≤ keys.length ∧ force = true
  · rw [if_pos h]
    cases (sortByDate keys).head? <;> simp [isDeleteOf, List.countP_cons]
  · rw [if_neg h]
    rfl

/-- C5: with a zero grace period, every superseded credential gets exactly
one deletion attempt, and in the call sequence that deletion immediately
follows the credential's own deactivation attempt of the supersession
pass (src/main.py lines 132-143). -/
theorem rotate_grace_zero_delete_after_deactivation (keys : List Key) (profile : String)
    (force : Bool) (newKey : AccessKey) (dok dlok : String → Bool) (now : Int)
    (cfg0 : Config) (k : Key)
    (hrun : keys.length ≤ 1 ∨ force = true)
    (hnd : (keys.map Key.id).Nodup)
    (hk : k ∈ keys) (hne : ¬k.id = newKey.id) :
    (rotate keys profile 0 force newKey dok dlok now cfg0).events.countP
        (isDeleteOf k.id) = 1 ∧
    ∃ pre post, (rotate keys profile 0 force newKey dok dlok now cfg0).events =
      pre ++ Event.deactivate k.id (dok k.id) :: Event.delete k.id (dlok k.id) :: post := by
  unfold rotate
  rw [if_neg (guard_passes keys force hrun)]
  constructor
  · show (Event.create newKey.id :: Event.writeConfig ::
        (forcedEvents keys force dok ++
          (iterationOrder keys force).flatMap
            (supersedeEvents newKey 0 now dok dlok))).countP (isDeleteOf k.id) = 1
    rw [List.countP_cons, List.countP_cons, List.countP_append, countP_del_forced,
      countP_del_supersede newKey 0 now dok dlok k.id (by omega),
      countP_pred_simplify _ _ _ hne, iterationOrder_countP_id keys force k hnd hk]
    simp [isDeleteOf]
  · have hk1 : k ∈ iterationOrder keys force := by
      unfold iterationOrder
      by_cases hf2 : 2 ≤ keys.length ∧ force = true
      · rw [if_pos hf2]
        exact (List.perm_insertionSort _ _).mem_iff.mpr hk
      · rw [if_neg hf2]
        exact hk
    obtain ⟨s, t, hst⟩ := List.append_of_mem hk1
    have hblk : supersedeEvents newKey 0 now dok dlok k =
        [Event.deactivate k.id (dok k.id), Event.delete k.id (dlok k.id)] := by
      simp [supersedeEvents, hne]
    refine ⟨Event.create newKey.id :: Event.writeConfig ::
      (forcedEvents keys force dok ++
        s.flatMap (supersedeEvents newKey 0 now dok dlok)),
      t.flatMap (supersedeEvents newKey 0 now dok dlok), ?_⟩
    show Event.create newKey.id :: Event.writeConfig ::
        (forcedEvents keys force dok ++
          (iterationOrder keys force).flatMap (supersedeEvents newKey 0 now dok dlok)) = _
    rw [hst, List.flatMap_append, List.flatMap_cons, hblk]
    simp

theorem rotate_grace_zero_delete_after_deactivation_witness :
    (rotate [⟨"A", 0⟩] "default" 0 false ⟨"N", "S"⟩
        (fun _ => true) (fun _ => true) 0 []).events.countP (isDeleteOf "A") = 1 ∧
    ∃ pre post, (rotate [⟨"A", 0⟩] "default" 0 false ⟨"N", "S"⟩
        (fun _ => true) (fun _ => true) 0 []).events =
      pre ++ Event.deactivate "A" true :: Event.delete "A" true :: post :=
  rotate_grace_zero_delete_after_deactivation [⟨"A", 0⟩] "default" false ⟨"N", "S"⟩
    (fun _ => true) (fun _ => true) 0 [] ⟨"A", 0⟩
    (Or.inl (by decide)) (by decide) (by decide) (by decide)

theorem countP_delEv_supersede_pos (newKey : AccessKey) (grace : Int) (now : Int)
    (dok dlok : String → Bool) (hg : 0 < grace) (ks : List Key) :
    (ks.flatMap (supersedeEvents newKey grace now dok dlok)).countP isDeleteEv = 0 := by
  induction ks with
  | nil => simp
  | cons k ks ih =>
    rw [List.flatMap_cons, List.countP_append, ih]
    by_cases h : k.id = newKey.id <;>
      simp [supersedeEvents, h, hg, isDeleteEv, List.countP_cons]

theorem countP_delEv_forced (keys : List Key) (force : Bool) (dok : String → Bool) :
    (forcedEvents keys force dok).countP isDeleteEv = 0 := by
  unfold forcedEvents
  by_cases h : 2 ≤ keys.length ∧ force = true
  · rw [if_pos h]
    cases (sortByDate keys).head? <;> simp [isDeleteEv, List.countP_cons]
  · rw [if_neg h]
    rfl

theorem report_date_supersede (newKey : AccessKey) (grace : Int) (now : Int)
    (dok dlok : String → Bool) (i : String) (d : Int) (ks : List Key)
    (hm : Event.reportDeletionDate i d ∈
      ks.flatMap (supersedeEvents newKey grace now dok dlok)) :
    d = now + grace := by
  rw [List.mem_flatMap] at hm
  obtain ⟨a, _, hmem⟩ := hm
  by_cases hk : a.id = newKey.id
  · simp [supersedeEvents, hk] at hmem
  · by_cases hg : 0 < grace
    · simp [supersedeEvents, hk, hg] at hmem
      exact hmem.2
    · simp [supersedeEvents, hk, hg] at hmem

theorem report_notin_forced (keys : List Key) (force : Bool) (dok : String → Bool)
    (i : String) (d : Int) :
    Event.reportDeletionDate i d ∉ forcedEvents keys force dok := by
  unfold forcedEvents
  by_cases h : 2 ≤ keys.length ∧ force = true
  · rw [if_pos h]
    cases (sortByDate keys).head? <;> simp
  · rw [if_neg h]
    simp

/-- C6: with a positive grace period no deletion call is ever issued, and
every deletion date reported to the operator equals the current time plus
the grace period, at day granularity (src/main.py lines 137-140). -/
theorem rotate_grace_positive_no_delete (keys : List Key) (profile : String) (grace : Int)
    (force : Bool) (newKey : AccessKey) (dok dlok : String → Bool) (now : Int)
    (cfg0 : Config) (hg : 0 < grace) :
    (rotate keys profile grace force newKey dok dlok now cfg0).events.countP
        isDeleteEv = 0 ∧
    ∀ i d, Event.reportDeletionDate i d ∈
        (rotate keys profile grace force newKey dok dlok now cfg0).events →
      d = now + grace := by
  unfold rotate
  by_cases hc : 2 ≤ keys.length ∧ force = false
  · rw [if_pos hc]
    exact ⟨rfl, fun i d hm => absurd hm (List.not_mem_nil _)⟩
  · rw [if_neg hc]
    constructor
    · show (Event.create newKey.id :: Event.writeConfig ::
          (forcedEvents keys force dok ++
            (iterationOrder keys force).flatMap
              (supersedeEvents newKey grace now dok dlok))).countP isDeleteEv = 0
      rw [List.countP_cons, List.countP_cons, List.countP_append, countP_delEv_forced,
        countP_delEv_supersede_pos newKey grace now dok dlok hg]
      rfl
    · intro i d hm
      have hm' : Event.reportDeletionDate i d ∈
          forcedEvents keys force dok ++
            (iterationOrder keys force).flatMap
              (supersedeEvents newKey grace now dok dlok) := by
        rcases List.mem_cons.mp hm with h | h
        · cases h
        · rcases List.mem_cons.mp h with h' | h'
          · cases h'
          · exact h'
      rcases List.mem_append.mp hm' with h | h
      · exact absurd h (report_notin_forced keys force dok i d)
      · exact report_date_supersede newKey grace now dok dlok i d _ h

theorem rotate_grace_positive_no_delete_witness :
    (rotate [⟨"A", 0⟩] "default" 7 false ⟨"N", "S"⟩
        (fun _ => true) (fun _ => true) 100 []).events.countP isDeleteEv = 0 ∧
    ∀ i d, Event.reportDeletionDate i d ∈
        (rotate [⟨"A", 0⟩] "default" 7 false ⟨"N", "S"⟩
          (fun _ => true) (fun _ => true) 100 []).events →
      d = 100 + 7 :=
  rotate_grace_positive_no_delete [⟨"A", 0⟩] "default" 7 false ⟨"N", "S"⟩
    (fun _ => true) (fun _ => true) 100 [] (by decide)

/-- C9: deactivation/deletion failures are non-fatal.  For every choice of
the per-key success oracles — in particular when any deactivation or
deletion call fails — the run still exits 0 and still issues the
deactivation attempt (and, with a non-positive grace period, the deletion
attempt) for every superseded credential: the loop proceeds to the next
credential regardless (src/main.py lines 74-94, 132-143). -/
theorem rotate_supersession_nonfatal (keys : List Key) (profile : String) (grace : Int)
    (force : Bool) (newKey : AccessKey) (dok dlok : String → Bool) (now : Int)
    (cfg0 : Config)
    (hrun : keys.length ≤ 1 ∨ force = true) :
    (rotate keys profile grace force newKey dok dlok now cfg0).exitCode = 0 ∧
    ∀ k ∈ keys, ¬k.id = newKey.id →
      Event.deactivate k.id (dok k.id) ∈
        (rotate keys profile grace force newKey dok dlok now cfg0).events ∧
      (¬0 < grace → Event.delete k.id (dlok k.id) ∈
        (rotate keys profile grace force newKey dok dlok now cfg0).events) := by
  unfold rotate
  rw [if_neg (guard_passes keys force hrun)]
  refine ⟨rfl, ?_⟩
  intro k hk hne
  have hk1 : k ∈ iterationOrder keys force := by
    unfold iterationOrder
    by_cases hf2 : 2 ≤ keys.length ∧ force = true
    · rw [if_pos hf2]
      exact (List.perm_insertionSort _ _).mem_iff.mpr hk
    · rw [if_neg hf2]
      exact hk
  constructor
  · show Event.deactivate k.id (dok k.id) ∈ Event.create newKey.id :: Event.writeConfig ::
      (forcedEvents keys force dok ++
        (iterationOrder keys force).flatMap (supersedeEvents newKey grace now dok dlok))
    exact List.mem_cons_of_mem _ (List.mem_cons_of_mem _ (List.mem_append_right _
      (List.mem_flatMap.mpr ⟨k, hk1, by simp [supersedeEvents, hne]⟩)))
  · intro hg
    show Event.delete k.id (dlok k.id) ∈ Event.create newKey.id :: Event.writeConfig ::
      (forcedEvents keys force dok ++
        (iterationOrder keys force).flatMap (supersedeEvents newKey grace now dok dlok))
    exact List.mem_cons_of_mem _ (List.mem_cons_of_mem _ (List.mem_append_right _
      (List.mem_flatMap.mpr ⟨k, hk1, by simp [supersedeEvents, hne, hg]⟩)))

theorem rotate_supersession_nonfatal_witness :
    (rotate [⟨"A", 0⟩] "default" 0 false ⟨"N", "S"⟩
        (fun _ => false) (fun _ => false) 0 []).exitCode = 0 ∧
    ∀ k ∈ ([⟨"A", 0⟩] : List Key), ¬k.id = ("N" : String) →
      Event.deactivate k.id false ∈
        (rotate [⟨"A", 0⟩] "default" 0 false ⟨"N", "S"⟩
          (fun _ => false) (fun _ => false) 0 []).events ∧
      (¬(0:Int) < 0 → Event.delete k.id false ∈
        (rotate [⟨"A", 0⟩] "default" 0 false ⟨"N", "S"⟩
          (fun _ => false) (fun _ => false) 0 []).events) :=
  rotate_supersession_nonfatal [⟨"A", 0⟩] "default" 0 false ⟨"N", "S"⟩
    (fun _ => false) (fun _ => false) 0 [] (Or.inl (by decide))

theorem supersedeEvents_nonpos (newKey : AccessKey) (g : Int) (hg : ¬0 < g)
    (now : Int) (dok dlok : String → Bool) :
    supersedeEvents newKey g now dok dlok = supersedeEvents newKey 0 now dok dlok := by
  funext k
  by_cases hk : k.id = newKey.id
  · simp [supersedeEvents, hk]
  · simp [supersedeEvents, hk, hg]

/-- C10: a negative `--grace-period` is accepted (argparse only coerces to
`int`, src/main.py lines 20-21) and the run is identical to a zero grace
period: the `grace_period > 0` test at line 137 fails either way, so each
superseded credential is deleted immediately after its deactivation
attempt. -/
theorem rotate_negative_grace (keys : List Key) (profile : String) (grace : Int)
    (force : Bool) (newKey : AccessKey) (dok dlok : String → Bool) (now : Int)
    (cfg0 : Config) (hg : grace < 0) :
    rotate keys profile grace force newKey dok dlok now cfg0 =
      rotate keys profile 0 force newKey dok dlok now cfg0 := by
  unfold rotate
  rw [supersedeEvents_nonpos newKey grace (by omega) now dok dlok]

theorem rotate_negative_grace_witness :
    rotate [⟨"A", 0⟩] "default" (-3) false ⟨"N", "S"⟩
        (fun _ => true) (fun _ => true) 0 [] =
      rotate [⟨"A", 0⟩] "default" 0 false ⟨"N", "S"⟩
        (fun _ => true) (fun _ => true) 0 [] :=
  rotate_negative_grace [⟨"A", 0⟩] "default" (-3) false ⟨"N", "S"⟩
    (fun _ => true) (fun _ => true) 0 [] (by decide)

/-- C7 as stated is false at the byte level: rewriting the credentials
file re-serializes every section, so the line `X=1` of the untouched
section `[other]` comes back as `x = 1` (key lower-cased by
`optionxform`, delimiter normalized) — not byte-for-byte, even though its
parsed content is preserved. -/
theorem update_credentials_file_lines_not_byte_preserving :
    ("X=1" ∈ (["[other]", "X=1"] : List String)) ∧
    update_credentials_file_lines ["[other]", "X=1"] "default" ⟨"AK", "SEC"⟩ =
      ["[other]", "x = 1", "", "[default]", "aws_access_key_id = AK",
       "aws_secret_access_key = SEC", ""] ∧
    ("X=1" ∉ update_credentials_file_lines ["[other]", "X=1"] "default" ⟨"AK", "SEC"⟩) := by
  decide

/-- C7 (amended): the rewrite preserves every section other than the
target profile at the parsed level — same section, same options in the
same order — though not byte-for-byte (src/main.py lines 54-71). -/
theorem update_credentials_file_preserves_other_sections (cfg : Config) (profile : String)
    (ak : AccessKey) (s : String) (h : ¬s = profile) :
    lookupSection (update_credentials_file cfg profile ak) s = lookupSection cfg s :=
  lookupSection_update_other cfg profile ak s h

theorem update_credentials_file_preserves_other_sections_witness :
    lookupSection (update_credentials_file [("other", [("x", "1")])] "default" ⟨"AK", "SEC"⟩)
        "other" =
      lookupSection [("other", [("x", "1")])] "other" :=
  update_credentials_file_preserves_other_sections [("other", [("x", "1")])] "default"
    ⟨"AK", "SEC"⟩ "other" (by decide)

/-- C8 as stated is false: if a deactivation call fails (non-fatally) and
the grace period is zero, the subsequent deletion call is still issued and
can succeed, deleting a credential whose status is still Active.  Here key
"A"'s deactivation fails, its deletion succeeds, and the run still exits 0. -/
theorem rotate_deletes_active_key_cex :
    (rotate [⟨"A", 0⟩] "default" 0 false ⟨"N", "S"⟩
        (fun _ => false) (fun _ => true) 0 []).exitCode = 0 ∧
    deletedWhileActive (fun _ => KeyStatus.active)
      (rotate [⟨"A", 0⟩] "default" 0 false ⟨"N", "S"⟩
        (fun _ => false) (fun _ => true) 0 []).events = true := by
  decide

theorem dwa_append (l1 l2 : List Event) : ∀ st : String → KeyStatus,
    deletedWhileActive st (l1 ++ l2) =
      (deletedWhileActive st l1 || deletedWhileActive (l1.foldl stepStatus st) l2) := by
  induction l1 with
  | nil => intro st; rfl
  | cons e l1 ih =>
    intro st
    show ((match e with
        | Event.delete i true => st i == KeyStatus.active
        | _ => false) || deletedWhileActive (stepStatus st e) (l1 ++ l2)) =
      (((match e with
        | Event.delete i true => st i == KeyStatus.active
        | _ => false) || deletedWhileActive (stepStatus st e) l1) ||
        deletedWhileActive ((e :: l1).foldl stepStatus st) l2)
    rw [ih, List.foldl_cons, Bool.or_assoc]

theorem dwa_supersede_false (newKey : AccessKey) (grace : Int) (now : Int)
    (dok dlok : String → Bool) (hdok : ∀ i, dok i = true) :
    ∀ (ks : List Key) (st : String → KeyStatus),
      deletedWhileActive st (ks.flatMap (supersedeEvents newKey grace now dok dlok)) =
        false := by
  intro ks
  induction ks with
  | nil => intro st; rfl
  | cons k ks ih =>
    intro st
    rw [List.flatMap_cons, dwa_append]
    have hblk : ∀ st' : String → KeyStatus,
        deletedWhileActive st' (supersedeEvents newKey grace now dok dlok k) = false := by
      intro st'
      by_cases hk : k.id = newKey.id
      · simp [supersedeEvents, hk, deletedWhileActive]
      · by_cases hg : 0 < grace
        · simp [supersedeEvents, hk, hg, deletedWhileActive]
        · cases hb : dlok k.id <;>
            simp [supersedeEvents, hk, hg, deletedWhileActive, stepStatus, hdok k.id, hb]
    rw [hblk st, ih]
    rfl

theorem dwa_forced_false (keys : List Key) (force : Bool) (dok : String → Bool)
    (st : String → KeyStatus) :
    deletedWhileActive st (forcedEvents keys force dok) = false := by
  unfold forcedEvents
  by_cases h : 2 ≤ keys.length ∧ force = true
  · rw [if_pos h]
    cases hh : (sortByDate keys).head? with
    | none => rfl
    | some old =>
      cases hb : dok old.id <;> simp [deletedWhileActive, stepStatus, hb]
  · rw [if_neg h]
    rfl

/-- C8 (amended): the deletion attempt of the supersession pass always
comes right after that credential's (possibly failed) deactivation
attempt; whenever every deactivation call succeeds, no credential is ever
deleted while its remote status is still Active — for every initial
status assignment, snapshot, flag and grace period.  (The unamended claim
fails exactly when a deactivation call fails and the deletion then
succeeds, as the counterexample shows.) -/
theorem rotate_no_active_delete_when_deactivations_succeed (keys : List Key)
    (profile : String) (grace : Int) (force : Bool) (newKey : AccessKey)
    (dok dlok : String → Bool) (now : Int) (cfg0 : Config) (st : String → KeyStatus)
    (hdok : ∀ i, dok i = true) :
    deletedWhileActive st
      (rotate keys profile grace force newKey dok dlok now cfg0).events = false := by
  unfold rotate
  by_cases hc : 2 ≤ keys.length ∧ force = false
  · rw [if_pos hc]
    rfl
  · rw [if_neg hc]
    show deletedWhileActive st
      (forcedEvents keys force dok ++
        (iterationOrder keys force).flatMap
          (supersedeEvents newKey grace now dok dlok)) = false
    rw [dwa_append, dwa_forced_false,
      dwa_supersede_false newKey grace now dok dlok hdok]
    rfl

theorem rotate_no_active_delete_when_deactivations_succeed_witness :
    deletedWhileActive (fun _ => KeyStatus.active)
      (rotate [⟨"A", 0⟩] "default" 0 false ⟨"N", "S"⟩
        (fun _ => true) (fun _ => true) 0 []).events = false :=
  rotate_no_active_delete_when_deactivations_succeed [⟨"A", 0⟩] "default" 0 false
    ⟨"N", "S"⟩ (fun _ => true) (fun _ => true) 0 [] (fun _ => KeyStatus.active)
    (fun _ => rfl)
